import Mathlib

/-!
Verification development for the SYNTHBRO interactive synthesizer surface
(src/components/synthbro.tsx). The note/voice state machine, the recorder
replay, the scheduler toggles, the step sequencer, the audio routing set up
by the init effect and the preset save/load logic are embedded as executable
Lean definitions, and the documented properties are settled against them.
Times and knob values are modelled as rationals; the synthesis engine is
modelled as the list of commands issued to it.
-/

namespace Synthbro

/-- Notes are pitch-name strings such as "C4" or "C#3", exactly the strings
used by the component. -/
abbrev Note := String

/-- A command issued to the synthesis engine (the Tone.PolySynth and the
effect nodes): an attack (triggerAttack), a release (triggerRelease), a
transient attack-plus-release with a duration string and an absolute time
(triggerAttackRelease), or a global releaseAll. -/
inductive EngineCmd where
  | attack (note : Note)
  | release (note : Note)
  | attackRelease (note : Note) (dur : String) (time : ℚ)
  | releaseAllCmd
  deriving DecidableEq, Repr

/-- True for the transient attack-plus-release command, which never touches
the held-note state. -/
def EngineCmd.transient : EngineCmd → Bool
  | .attackRelease _ _ _ => true
  | _ => false

/-- The note an engine command refers to (the empty string for the global
releaseAll, which names no single note). -/
def EngineCmd.noteOf : EngineCmd → Note
  | .attack n => n
  | .release n => n
  | .attackRelease n _ _ => n
  | .releaseAllCmd => ""

/-! ## Preset codec (savePreset / loadPreset) -/

/-- Oscillator types offered by the oscillator-type selector. -/
inductive OscType where
  | sine | square | triangle | sawtooth | fatsine | pwm
  deriving DecidableEq, Repr

/-- The flat parameter snapshot savePreset reads: synth volume, oscillator
type, and the wet levels of reverb, delay and distortion. -/
structure ParamState where
  volume : ℚ
  oscillatorType : OscType
  reverbWet : ℚ
  delayWet : ℚ
  distortionWet : ℚ
  deriving DecidableEq, Repr

/-- The preset object savePreset builds and stores under the key
"synthPreset". JSON serialization to localStorage is modelled as storing
the record itself: JSON.stringify followed by JSON.parse round-trips these
numeric and string fields exactly. -/
structure Preset where
  volume : ℚ
  oscillatorType : OscType
  reverbWet : ℚ
  delayWet : ℚ
  distortionWet : ℚ
  deriving DecidableEq, Repr

/-- savePreset from the source: reads the five parameters from the current
state and stores the resulting preset object. -/
def savePreset (p : ParamState) : Preset :=
  { volume := p.volume
    oscillatorType := p.oscillatorType
    reverbWet := p.reverbWet
    delayWet := p.delayWet
    distortionWet := p.distortionWet }

/-- loadPreset from the source: if the store is empty it alerts and leaves
the parameters unchanged; otherwise it applies volume and oscillator type
to the synth and each wet level to its effect node. -/
def loadPreset (p : ParamState) (store : Option Preset) : ParamState :=
  match store with
  | none => p
  | some pre =>
      { volume := pre.volume
        oscillatorType := pre.oscillatorType
        reverbWet := pre.reverbWet
        delayWet := pre.delayWet
        distortionWet := pre.distortionWet }

/-! ## Audio routing set up by the init effect -/

/-- The audio nodes created by the init effect of the SYNTHBRO component. -/
inductive AudioNode where
  | source | reverb | delayNode | distortion | analyzer | destination | recorder
  deriving DecidableEq, Repr

/-- The directed connections the init effect establishes, in source order:
each of reverb, delay and distortion is constructed with .toDestination(),
which connects that node straight to the destination; the chain call then
connects synth, reverb, delay, distortion, analyzer and destination in
series; finally newSynth.connect(newRecorder) taps the source into the
recorder. -/
def initConnections : List (AudioNode × AudioNode) :=
  [ (.reverb, .destination),
    (.delayNode, .destination),
    (.distortion, .destination),
    (.source, .reverb),
    (.reverb, .delayNode),
    (.delayNode, .distortion),
    (.distortion, .analyzer),
    (.analyzer, .destination),
    (.source, .recorder) ]

/-- The serial pipeline order the claim describes. -/
def serialChain : List (AudioNode × AudioNode) :=
  [ (.source, .reverb),
    (.reverb, .delayNode),
    (.delayNode, .distortion),
    (.distortion, .analyzer),
    (.analyzer, .destination) ]

/-! ## Transport (spec-modelled) and component state -/

/-- Modelled from the spec: the Clock/Transport implementation lives in the
Tone.js dependency (Tone.Transport), not in this repository's sources. Per
the spec's TransportState: a tempo in BPM, a running flag, and a musical
position in beats that advances only while running. -/
structure TransportState where
  tempoBPM : ℚ
  running : Bool
  positionInBeats : ℚ
  deriving DecidableEq, Repr

/-- Modelled from the spec: start marks the transport running and resumes
advancement from the current (frozen) position. -/
def transportStart (t : TransportState) : TransportState :=
  { t with running := true }

/-- Modelled from the spec: stop freezes positionInBeats at its current
value. -/
def transportStop (t : TransportState) : TransportState :=
  { t with running := false }

/-- Modelled from the spec: the passage of dt seconds of wall time advances
positionInBeats at tempoBPM beats per minute while running, and leaves it
untouched while stopped. -/
def transportAdvance (t : TransportState) (dt : ℚ) : TransportState :=
  if t.running then
    { t with positionInBeats := t.positionInBeats + t.tempoBPM / 60 * dt }
  else t

/-- One recorded note-on event: the note and its offset in seconds from the
recording start instant (the source's recordedNotes entries). -/
structure RecordedEvent where
  note : Note
  time : ℚ
  deriving DecidableEq, Repr

/-- The component state the claims touch: activeNotes is the JS Set of
held notes (modelled as its insertion-ordered duplicate-free list),
isPlaying drives toggleSynth, isRecording and startTime drive the recording
branch of the key and mouse handlers, recordedNotes is the stored
performance, and transport is the spec-modelled Tone.Transport. -/
structure SynthState where
  activeNotes : List Note
  isPlaying : Bool
  isRecording : Bool
  startTime : Option ℚ
  recordedNotes : List RecordedEvent
  transport : TransportState
  deriving DecidableEq, Repr

/-- JS Set.add: appends the note unless it is already a member (a Set keeps
its first insertion position). -/
def setAdd (l : List Note) (n : Note) : List Note :=
  if n ∈ l then l else l ++ [n]

/-- The listeners lower-case the incoming key name (e.key): each
character lower-cased (written structurally over the character list so that
it evaluates in the kernel). -/
def keyToLower (s : String) : String := ⟨s.data.map Char.toLower⟩

/-- The KEY_TO_NOTE mapping from the source, from (lower-cased) key name to
note. -/
def KEY_TO_NOTE : String → Option Note
  | "z" => some "C3" | "s" => some "C#3" | "x" => some "D3" | "d" => some "D#3"
  | "c" => some "E3" | "v" => some "F3" | "g" => some "F#3" | "b" => some "G3"
  | "h" => some "G#3" | "n" => some "A3" | "j" => some "A#3" | "m" => some "B3"
  | "q" => some "C4" | "2" => some "C#4" | "w" => some "D4" | "3" => some "D#4"
  | "e" => some "E4" | "r" => some "F4" | "5" => some "F#4" | "t" => some "G4"
  | "6" => some "G#4" | "y" => some "A4" | "7" => some "A#4" | "u" => some "B4"
  | "i" => some "C5" | "9" => some "C#5" | "o" => some "D5" | "0" => some "D#5"
  | "p" => some "E5" | "[" => some "F5" | "=" => some "F#5" | "]" => some "G5"
  | _ => none

/-- The recording branch shared by handleKeyDown and PianoKey.handleMouseDown:
when isRecording and the start time ref is set, append the note with its
offset from the recording start. -/
def recordIfRecording (st : SynthState) (note : Note) (now : ℚ) : SynthState :=
  match st.startTime with
  | some t0 =>
      if st.isRecording then
        { st with recordedNotes := st.recordedNotes ++ [⟨note, now - t0⟩] }
      else st
  | none => st

/-- handleKeyDown from the source (the window keydown listener): look the
key up in KEY_TO_NOTE after lower-casing; if it maps to a note that is not
already active, mark it active, issue an attack, and record the event when
recording; otherwise do nothing. The synth is assumed initialized. -/
def handleKeyDown (st : SynthState) (key : String) (now : ℚ) :
    SynthState × List EngineCmd :=
  match KEY_TO_NOTE (keyToLower key) with
  | none => (st, [])
  | some note =>
      if note ∈ st.activeNotes then (st, [])
      else
        let st1 := { st with activeNotes := setAdd st.activeNotes note }
        (recordIfRecording st1 note now, [.attack note])

/-- handleKeyUp from the source: if the key maps to a note, delete it from
the active set (a Set delete, a no-op when absent) and issue a release. -/
def handleKeyUp (st : SynthState) (key : String) : SynthState × List EngineCmd :=
  match KEY_TO_NOTE (keyToLower key) with
  | none => (st, [])
  | some note =>
      ({ st with activeNotes := st.activeNotes.erase note }, [.release note])

/-- PianoKey.handleMouseDown from the source: always issue an attack, add
the note to the active set (Set.add, idempotent), and record the event when
recording — there is no already-active guard on this path. -/
def handleMouseDown (st : SynthState) (note : Note) (now : ℚ) :
    SynthState × List EngineCmd :=
  let st1 := { st with activeNotes := setAdd st.activeNotes note }
  (recordIfRecording st1 note now, [.attack note])

/-- PianoKey.handleMouseUp from the source: issue a release and delete the
note from the active set. -/
def handleMouseUp (st : SynthState) (note : Note) : SynthState × List EngineCmd :=
  ({ st with activeNotes := st.activeNotes.erase note }, [.release note])

/-- The stop branch of toggleSynth from the source: Tone.Transport.stop()
then synth.releaseAll(), then isPlaying is cleared. The activeNotes set is
not touched by this branch. -/
def stopPlaybackBranch (st : SynthState) : SynthState × List EngineCmd :=
  ({ st with isPlaying := false, transport := transportStop st.transport },
   [.releaseAllCmd])

/-- The start branch of toggleSynth from the source: Tone.start() then
Tone.Transport.start(), then isPlaying is set. -/
def startPlaybackBranch (st : SynthState) : SynthState × List EngineCmd :=
  ({ st with isPlaying := true, transport := transportStart st.transport }, [])

/-- toggleSynth from the source: stop when playing, start when not. -/
def toggleSynth (st : SynthState) : SynthState × List EngineCmd :=
  if st.isPlaying then stopPlaybackBranch st else startPlaybackBranch st

/-! ## Operation sequences over the note state (claim C1) -/

/-- The trigger, release and stop-playback operations of the claims: a
keyboard key-down or key-up carries the raw key string; a mouse-down or
mouse-up on a piano key carries the note directly; stopPlayback is the stop
branch of toggleSynth. -/
inductive NoteOp where
  | keyDown (key : String) (now : ℚ)
  | keyUp (key : String)
  | mouseDown (note : Note) (now : ℚ)
  | mouseUp (note : Note)
  | stopPlayback
  deriving DecidableEq, Repr

/-- Apply one operation to the component state via the source handlers. -/
def applyOp (st : SynthState) : NoteOp → SynthState
  | .keyDown k now => (handleKeyDown st k now).1
  | .keyUp k => (handleKeyUp st k).1
  | .mouseDown n now => (handleMouseDown st n now).1
  | .mouseUp n => (handleMouseUp st n).1
  | .stopPlayback => (stopPlaybackBranch st).1

/-- Replay a whole operation sequence through the source handlers. -/
def runOps (st : SynthState) (ops : List NoteOp) : SynthState :=
  ops.foldl applyOp st

/-- Reference model taken from the spec's words for claim C1: trigger adds
the note (idempotent), release removes it (no-op when absent), and
releaseAll (stop-playback) empties the set. -/
def refApply (s : Finset Note) : NoteOp → Finset Note
  | .keyDown k _ =>
      match KEY_TO_NOTE (keyToLower k) with
      | some n => insert n s
      | none => s
  | .keyUp k =>
      match KEY_TO_NOTE (keyToLower k) with
      | some n => s.erase n
      | none => s
  | .mouseDown n _ => insert n s
  | .mouseUp n => s.erase n
  | .stopPlayback => ∅

/-- Run of the spec's reference model. -/
def refRun (s : Finset Note) (ops : List NoteOp) : Finset Note :=
  ops.foldl refApply s

/-- The amended reference model: identical to refApply except that
stop-playback leaves the set unchanged (it only issues an engine
releaseAll), which is what the source's toggleSynth does. -/
def refApplyAmended (s : Finset Note) : NoteOp → Finset Note
  | .stopPlayback => s
  | op => refApply s op

/-- Run of the amended reference model. -/
def refRunAmended (s : Finset Note) (ops : List NoteOp) : Finset Note :=
  ops.foldl refApplyAmended s

/-- An idle component state with no active notes, used as the concrete
starting point of the counterexample and witness evaluations. -/
def st0 : SynthState :=
  { activeNotes := []
    isPlaying := true
    isRecording := false
    startTime := none
    recordedNotes := []
    transport := { tempoBPM := 120, running := true, positionInBeats := 0 } }

/-! ## Replay of a recorded performance (playRecording) -/

/-- playRecording from the source: for each stored event, in stored order,
schedule an eighth-note attack-plus-release of its note at
Tone.now() + its recorded offset. -/
def playRecording (recorded : List RecordedEvent) (now : ℚ) : List EngineCmd :=
  recorded.map fun e => .attackRelease e.note "8n" (now + e.time)

/-- playRecording acting on the component state: it reads recordedNotes and
issues engine commands; no setState call appears in its body, so the state
is returned unchanged. -/
def playRecordingS (st : SynthState) (now : ℚ) : SynthState × List EngineCmd :=
  (st, playRecording st.recordedNotes now)

/-! ## Arpeggiator callback (claim C5) -/

/-- The body of the callback toggleArpeggiator registers with
Tone.Transport.scheduleRepeat: convert the captured activeNotes value to an
array; if non-empty, pick the element at a uniformly random index and issue
a transient sixteenth-note attack-plus-release at the tick time. The
argument r stands for the value drawn from Math.random scaled to the array
length (taken modulo the length here). -/
def arpTick (notes : List Note) (r : ℕ) (time : ℚ) : List EngineCmd :=
  if h : 0 < notes.length then
    [.attackRelease (notes.get ⟨r % notes.length, Nat.mod_lt r h⟩) "16n" time]
  else []

/-- Modelled from the spec: the arpeggiator callback the spec prescribes,
which re-queries the set of currently-active notes at tick time and then
plucks one of them at random. Its per-set behaviour is the same pluck;
the difference to the source is which note list it is fed. -/
def arpTickRequery (currentActive : List Note) (r : ℕ) (time : ℚ) : List EngineCmd :=
  arpTick currentActive r time

/-- The slice of the component that the arpeggiator callback interacts
with: the current activeNotes value, and, when the arpeggiator is enabled,
the activeNotes value the registered callback closed over. toggleArpeggiator
is defined in the component body, so the callback it registers captures the
activeNotes constant of the render in which the button was clicked; no
effect re-registers the callback when activeNotes changes. -/
structure ArpComponent where
  activeNotes : List Note
  capturedCallback : Option (List Note)
  deriving DecidableEq, Repr

/-- Enabling the arpeggiator (the else branch of toggleArpeggiator):
registers the callback, which closes over the current activeNotes value. -/
def enableArp (c : ArpComponent) : ArpComponent :=
  { c with capturedCallback := some c.activeNotes }

/-- A key or mouse press landing after the arpeggiator was enabled: the
live activeNotes state gains the note, the registered callback closure does
not change. -/
def pressNote (c : ArpComponent) (n : Note) : ArpComponent :=
  { c with activeNotes := setAdd c.activeNotes n }

/-- One arpeggiator tick as the source executes it: the registered callback
runs on the note list it captured at enable time. -/
def arpComponentTick (c : ArpComponent) (r : ℕ) (time : ℚ) : List EngineCmd :=
  match c.capturedCallback with
  | some captured => arpTick captured r time
  | none => []

/-! ## Scheduler feature-slots (claim C4) -/

/-- The three feature-slots that register repeating work: the arpeggiator
and the metronome via Tone.Transport.scheduleRepeat, and the sequencer via
the Tone.Part created by its useEffect. -/
inductive Slot where
  | arpeggiator | metronome | sequencer
  deriving DecidableEq, Repr

/-- The scheduling state of the component: the live scheduled tasks (each a
numeric handle paired with the slot whose callback it fires), the next
fresh handle, and the per-slot React state (active flags and stored ids).
The task registry is modelled from the spec, since
Tone.Transport.scheduleRepeat / Tone.Transport.clear and Tone.Part live in
the Tone.js dependency: scheduleRepeat registers one repeating task and
returns a fresh handle, clear cancels the task with that handle. -/
structure SchedState where
  registry : List (ℕ × Slot)
  nextId : ℕ
  isArpeggiatorActive : Bool
  arpeggiatorId : Option ℕ
  isMetronomeActive : Bool
  metronomeId : Option ℕ
  seqPartId : Option ℕ
  deriving DecidableEq, Repr

/-- The scheduling state on mount: nothing registered, both toggles off. -/
def initSched : SchedState :=
  { registry := []
    nextId := 0
    isArpeggiatorActive := false
    arpeggiatorId := none
    isMetronomeActive := false
    metronomeId := none
    seqPartId := none }

/-- Modelled from the spec: Tone.Transport.scheduleRepeat (and starting a
Tone.Part) registers one repeating task for the given slot and returns its
fresh numeric handle. -/
def scheduleRepeat (st : SchedState) (s : Slot) : SchedState × ℕ :=
  ({ st with registry := st.registry ++ [(st.nextId, s)], nextId := st.nextId + 1 },
   st.nextId)

/-- Modelled from the spec: Tone.Transport.clear (and Part.dispose) cancels
the task with the given handle. -/
def clearTask (st : SchedState) (id : ℕ) : SchedState :=
  { st with registry := st.registry.filter fun p => p.1 ≠ id }

/-- toggleArpeggiator from the source: when active, clear the stored task
id and null it; when inactive, register the repeating sixteenth-note
callback and store its id; finally flip the active flag. -/
def toggleArpeggiator (st : SchedState) : SchedState :=
  if st.isArpeggiatorActive then
    let st1 :=
      match st.arpeggiatorId with
      | some id => clearTask st id
      | none => st
    { st1 with isArpeggiatorActive := false, arpeggiatorId := none }
  else
    let p := scheduleRepeat st .arpeggiator
    { p.1 with isArpeggiatorActive := true, arpeggiatorId := some p.2 }

/-- toggleMetronome from the source: when active, clear the stored task id
and null it; when inactive, create the click player, register the repeating
quarter-note callback and store its id; finally flip the active flag. -/
def toggleMetronome (st : SchedState) : SchedState :=
  if st.isMetronomeActive then
    let st1 :=
      match st.metronomeId with
      | some id => clearTask st id
      | none => st
    { st1 with isMetronomeActive := false, metronomeId := none }
  else
    let p := scheduleRepeat st .metronome
    { p.1 with isMetronomeActive := true, metronomeId := some p.2 }

/-- The sequencer useEffect from the source, which re-runs whenever the
sequence (or synth) changes: React first runs the previous cleanup, which
disposes the old Part, then the effect body creates and starts a new Part
over the current sequence. -/
def sequencerEffect (st : SchedState) : SchedState :=
  let st1 :=
    match st.seqPartId with
    | some id => clearTask st id
    | none => st
  let p := scheduleRepeat st1 .sequencer
  { p.1 with seqPartId := some p.2 }

/-- The scheduling operations a user session can perform: clicking the
arpeggiator toggle, clicking the metronome toggle, or editing the sequence
(which re-runs the sequencer effect). -/
inductive SchedOp where
  | arp | met | seqEff
  deriving DecidableEq, Repr

/-- Apply one scheduling operation. -/
def applySchedOp (st : SchedState) : SchedOp → SchedState
  | .arp => toggleArpeggiator st
  | .met => toggleMetronome st
  | .seqEff => sequencerEffect st

/-- Run a whole sequence of scheduling operations from a starting state. -/
def runSched (st : SchedState) (ops : List SchedOp) : SchedState :=
  ops.foldl applySchedOp st

/-- The live tasks registered for one slot. -/
def slotTasks (st : SchedState) (s : Slot) : List (ℕ × Slot) :=
  st.registry.filter fun p => p.2 = s

/-- How many times the slot's callback fires on one transport tick: once
per live task registered for it. -/
def firesPerTick (st : SchedState) (s : Slot) : ℕ :=
  (slotTasks st s).length

/-- The stored id of a slot agrees with the registry: when it is some id,
that id's task is the only live task of the slot; when it is none, the slot
has no live task. -/
def slotIdInv (st : SchedState) (s : Slot) (o : Option ℕ) : Prop :=
  match o with
  | some id => slotTasks st s = [(id, s)]
  | none => slotTasks st s = []

/-- The inductive invariant of the scheduling state: registered handles are
below the fresh counter and pairwise distinct, each slot's stored id
mirrors the registry, and the active flags mirror the stored ids. -/
def SchedInv (st : SchedState) : Prop :=
  (∀ p ∈ st.registry, p.1 < st.nextId) ∧
  (st.registry.map Prod.fst).Nodup ∧
  slotIdInv st .arpeggiator st.arpeggiatorId ∧
  slotIdInv st .metronome st.metronomeId ∧
  slotIdInv st .sequencer st.seqPartId ∧
  st.isArpeggiatorActive = st.arpeggiatorId.isSome ∧
  st.isMetronomeActive = st.metronomeId.isSome

/-! ## Step sequencer (claim C7) -/

/-- One sequencer step from the source's sequence state: a note, its
musical-time slot within the bar (the Tone time string), and the active
flag toggled by the step buttons. -/
structure SequenceStep where
  note : Note
  time : String
  active : Bool
  deriving DecidableEq, Repr

/-- The initial sequence state of the component. -/
def initialSequence : List SequenceStep :=
  [ { note := "C4", time := "0:0:0", active := false }
  , { note := "D4", time := "0:0:1", active := false }
  , { note := "E4", time := "0:1:0", active := false }
  , { note := "F4", time := "0:1:1", active := false } ]

/-- toggleStep from the source: copy the sequence and flip the active flag
of the step at the given index, leaving every other step alone. The UI only
invokes it with indices of existing steps; on an out-of-range index the
list is returned unchanged. -/
def toggleStep : List SequenceStep → ℕ → List SequenceStep
  | [], _ => []
  | s :: rest, 0 => { s with active := !s.active } :: rest
  | s :: rest, n + 1 => s :: toggleStep rest n

/-- The Part callback from the sequencer useEffect: at a step's scheduled
time, if the step is active, issue an eighth-note attack-plus-release of
its note; otherwise issue nothing. -/
def seqCallback (time : ℚ) (s : SequenceStep) : List EngineCmd :=
  if s.active then [.attackRelease s.note "8n" time] else []

/-- Helper for partPass: run the callback over the remaining steps,
numbering them from the given index. -/
def partPassAux (tm : ℕ → ℚ) : List SequenceStep → ℕ → List EngineCmd
  | [], _ => []
  | s :: rest, i => seqCallback (tm i) s ++ partPassAux tm rest (i + 1)

/-- Modelled from the spec: one full pass of the started Tone.Part over the
sequence — the Part invokes the source's callback once per step, in step
order, at that step's scheduled tick time (tm i is the absolute time of the
step in slot i). -/
def partPass (seq : List SequenceStep) (tm : ℕ → ℚ) : List EngineCmd :=
  partPassAux tm seq 0

/-- A component state in which C4 is held and playback is stopped, used for
the concrete evaluations around already-active triggers. -/
def stHeld : SynthState :=
  { st0 with activeNotes := ["C4"], isPlaying := false }

/-- A component state in which the synth is playing with the transport at
beat position 7, used for the concrete transport evaluations. -/
def stRun : SynthState :=
  { st0 with
      transport := { tempoBPM := 120, running := true, positionInBeats := 7 } }

/-! ## Helper lemmas -/

theorem setAdd_nodup {l : List Note} (h : l.Nodup) (n : Note) : (setAdd l n).Nodup := by
  unfold setAdd
  split
  · exact h
  · rename_i hn
    simp [List.nodup_append, h, hn]

theorem erase_nodup {l : List Note} (h : l.Nodup) (n : Note) : (l.erase n).Nodup :=
  (List.erase_sublist n l).nodup h

theorem toFinset_setAdd (l : List Note) (n : Note) :
    (setAdd l n).toFinset = insert n l.toFinset := by
  unfold setAdd
  split
  · rename_i hn
    rw [Finset.insert_eq_self.mpr (by simpa using hn)]
  · simp [List.toFinset_append, Finset.union_comm, Finset.insert_eq]

theorem toFinset_erase_of_nodup {l : List Note} (h : l.Nodup) (n : Note) :
    (l.erase n).toFinset = l.toFinset.erase n := by
  ext a
  simp only [List.mem_toFinset, Finset.mem_erase]
  rw [h.mem_erase_iff]

theorem recordIfRecording_activeNotes (st : SynthState) (n : Note) (t : ℚ) :
    (recordIfRecording st n t).activeNotes = st.activeNotes := by
  unfold recordIfRecording
  cases st.startTime
  · rfl
  · by_cases hr : st.isRecording <;> simp [hr]

theorem applyOp_activeNotes (st : SynthState) (op : NoteOp) :
    (applyOp st op).activeNotes =
      match op with
      | .keyDown k _ =>
          match KEY_TO_NOTE (keyToLower k) with
          | some n => setAdd st.activeNotes n
          | none => st.activeNotes
      | .keyUp k =>
          match KEY_TO_NOTE (keyToLower k) with
          | some n => st.activeNotes.erase n
          | none => st.activeNotes
      | .mouseDown n _ => setAdd st.activeNotes n
      | .mouseUp n => st.activeNotes.erase n
      | .stopPlayback => st.activeNotes := by
  cases op with
  | keyDown k now =>
      simp only [applyOp, handleKeyDown]
      cases KEY_TO_NOTE (keyToLower k) with
      | none => rfl
      | some note =>
          by_cases hm : note ∈ st.activeNotes
          · simp [hm, setAdd]
          · simp [hm, recordIfRecording_activeNotes]
  | keyUp k =>
      simp only [applyOp, handleKeyUp]
      cases KEY_TO_NOTE (keyToLower k) <;> rfl
  | mouseDown n now =>
      simp only [applyOp, handleMouseDown, recordIfRecording_activeNotes]
  | mouseUp n => rfl
  | stopPlayback => rfl

theorem applyOp_nodup {st : SynthState} (h : st.activeNotes.Nodup) (op : NoteOp) :
    (applyOp st op).activeNotes.Nodup := by
  rw [applyOp_activeNotes]
  cases op with
  | keyDown k now =>
      show (match KEY_TO_NOTE (keyToLower k) with
            | some n => setAdd st.activeNotes n
            | none => st.activeNotes).Nodup
      cases KEY_TO_NOTE (keyToLower k) with
      | none => exact h
      | some note => exact setAdd_nodup h note
  | keyUp k =>
      show (match KEY_TO_NOTE (keyToLower k) with
            | some n => st.activeNotes.erase n
            | none => st.activeNotes).Nodup
      cases KEY_TO_NOTE (keyToLower k) with
      | none => exact h
      | some note => exact erase_nodup h note
  | mouseDown n now => exact setAdd_nodup h n
  | mouseUp n => exact erase_nodup h n
  | stopPlayback => exact h

theorem applyOp_toFinset {st : SynthState} (h : st.activeNotes.Nodup) (op : NoteOp) :
    (applyOp st op).activeNotes.toFinset = refApplyAmended st.activeNotes.toFinset op := by
  rw [applyOp_activeNotes]
  cases op with
  | keyDown k now =>
      show (match KEY_TO_NOTE (keyToLower k) with
            | some n => setAdd st.activeNotes n
            | none => st.activeNotes).toFinset =
          refApplyAmended st.activeNotes.toFinset (NoteOp.keyDown k now)
      simp only [refApplyAmended, refApply]
      cases KEY_TO_NOTE (keyToLower k) with
      | none => rfl
      | some note => exact toFinset_setAdd st.activeNotes note
  | keyUp k =>
      show (match KEY_TO_NOTE (keyToLower k) with
            | some n => st.activeNotes.erase n
            | none => st.activeNotes).toFinset =
          refApplyAmended st.activeNotes.toFinset (NoteOp.keyUp k)
      simp only [refApplyAmended, refApply]
      cases KEY_TO_NOTE (keyToLower k) with
      | none => rfl
      | some note => exact toFinset_erase_of_nodup h note
  | mouseDown n now => exact toFinset_setAdd st.activeNotes n
  | mouseUp n => exact toFinset_erase_of_nodup h n
  | stopPlayback => rfl

theorem runOps_toFinset {st : SynthState} (ops : List NoteOp) (h : st.activeNotes.Nodup) :
    (runOps st ops).activeNotes.toFinset = refRunAmended st.activeNotes.toFinset ops := by
  induction ops generalizing st with
  | nil => rfl
  | cons op rest ih =>
      show (runOps (applyOp st op) rest).activeNotes.toFinset =
        refRunAmended (refApplyAmended st.activeNotes.toFinset op) rest
      rw [ih (applyOp_nodup h op), applyOp_toFinset h op]

/-! ## Claim C1 -/

/-- Claim C1 as stated is false on the code: starting from an idle state,
pressing the q key (note C4) and then stopping playback leaves C4 in the
ActiveNoteSet, while the reference model of the claim predicts the empty
set — the stop branch of toggleSynth issues synth.releaseAll() but never
clears the activeNotes state. -/
theorem stopPlayback_differs_from_reference_model :
    (runOps st0 [.keyDown "q" 0, .stopPlayback]).activeNotes = ["C4"] ∧
    refRun st0.activeNotes.toFinset [.keyDown "q" 0, .stopPlayback] = ∅ ∧
    (runOps st0 [.keyDown "q" 0, .stopPlayback]).activeNotes.toFinset ≠
      refRun st0.activeNotes.toFinset [.keyDown "q" 0, .stopPlayback] := by
  decide

/-- Claim C1 (amended): for every sequence of trigger, release and
stop-playback operations, the resulting ActiveNoteSet equals the set
computed by the reference model in which trigger adds the note
(idempotently), release removes it (a no-op when absent), and stop-playback
leaves the set unchanged; stop-playback only issues a releaseAll to the
synthesis engine and stops the transport, without touching ActiveNoteSet. -/
theorem runOps_matches_amended_reference (st : SynthState) (ops : List NoteOp)
    (h : st.activeNotes.Nodup) :
    (runOps st ops).activeNotes.toFinset = refRunAmended st.activeNotes.toFinset ops ∧
    (stopPlaybackBranch st).1.activeNotes = st.activeNotes ∧
    (stopPlaybackBranch st).2 = [.releaseAllCmd] :=
  ⟨runOps_toFinset ops h, rfl, rfl⟩

/-- Witness for the amended C1 at a concrete input. -/
theorem runOps_matches_amended_reference_witness :
    (runOps st0 [.keyDown "q" 0, .mouseDown "E4" 0, .keyUp "q", .stopPlayback]).activeNotes.toFinset =
        refRunAmended st0.activeNotes.toFinset
          [.keyDown "q" 0, .mouseDown "E4" 0, .keyUp "q", .stopPlayback] ∧
    (stopPlaybackBranch st0).1.activeNotes = st0.activeNotes ∧
    (stopPlaybackBranch st0).2 = [.releaseAllCmd] :=
  runOps_matches_amended_reference st0
    [.keyDown "q" 0, .mouseDown "E4" 0, .keyUp "q", .stopPlayback] (by decide)

/-! ## Claim C2 -/

/-- Claim C2: playRecording schedules, for every recorded event in stored
order, one eighth-note attack-plus-release at now plus the stored offset;
replaying an empty performance issues nothing; the call leaves the stored
performance (indeed the whole state) unchanged, so a second replay yields
the same commands; the three-event example is scheduled at relative offsets
0, 1/2 and 1 in that order. -/
theorem playRecording_replay_spec (st : SynthState) (now : ℚ) :
    (playRecordingS st now).1 = st ∧
    (playRecordingS st now).2.length = st.recordedNotes.length ∧
    (∀ i : ℕ, ((playRecordingS st now).2)[i]? =
      (st.recordedNotes[i]?).map fun e => EngineCmd.attackRelease e.note "8n" (now + e.time)) ∧
    playRecording [] now = [] ∧
    (playRecordingS ((playRecordingS st now).1) now).2 = (playRecordingS st now).2 ∧
    playRecording [⟨"C4", 0⟩, ⟨"E4", 1/2⟩, ⟨"G4", 1⟩] now =
      [.attackRelease "C4" "8n" (now + 0), .attackRelease "E4" "8n" (now + 1/2),
       .attackRelease "G4" "8n" (now + 1)] := by
  refine ⟨rfl, ?_, ?_, rfl, rfl, rfl⟩
  · simp [playRecordingS, playRecording]
  · intro i
    simp [playRecordingS, playRecording]

/-! ## Claim C3 -/

/-- Claim C3: from any playing state, toggleSynth stops the transport and
freezes positionInBeats (it no longer advances while stopped), and a second
toggleSynth (start, with no intervening reset or seek) resumes the running
transport from the frozen position rather than from zero. -/
theorem toggleSynth_stop_freezes_start_resumes (st : SynthState) (dt : ℚ)
    (h : st.isPlaying = true) :
    (toggleSynth st).1.transport.positionInBeats = st.transport.positionInBeats ∧
    (transportAdvance (toggleSynth st).1.transport dt).positionInBeats
        = st.transport.positionInBeats ∧
    (toggleSynth (toggleSynth st).1).1.transport.positionInBeats
        = st.transport.positionInBeats ∧
    (toggleSynth (toggleSynth st).1).1.transport.running = true := by
  simp [toggleSynth, h, stopPlaybackBranch, startPlaybackBranch, transportStop,
    transportStart, transportAdvance]

/-- Witness for C3 at a concrete playing state with the transport at beat
position 7. -/
theorem toggleSynth_stop_freezes_start_resumes_witness :
    (toggleSynth stRun).1.transport.positionInBeats = stRun.transport.positionInBeats ∧
    (transportAdvance (toggleSynth stRun).1.transport 5).positionInBeats
        = stRun.transport.positionInBeats ∧
    (toggleSynth (toggleSynth stRun).1).1.transport.positionInBeats
        = stRun.transport.positionInBeats ∧
    (toggleSynth (toggleSynth stRun).1).1.transport.running = true :=
  toggleSynth_stop_freezes_start_resumes stRun 5 rfl

/-! ## Claim C5 -/

/-- Claim C5 fails on the code (code bug): toggleArpeggiator registers a
callback that closed over the activeNotes value of the render in which it
ran. Enabling the arpeggiator with no notes held and then pressing C4, the
next tick runs the callback on the captured empty list and issues nothing,
while the spec's re-querying callback run on the notes active at tick time
would pluck C4. -/
theorem arpeggiator_uses_stale_capture :
    arpComponentTick (pressNote (enableArp ⟨[], none⟩) "C4") 0 0 = [] ∧
    (pressNote (enableArp ⟨[], none⟩) "C4").activeNotes = ["C4"] ∧
    arpTickRequery (pressNote (enableArp ⟨[], none⟩) "C4").activeNotes 0 0
        = [.attackRelease "C4" "16n" 0] ∧
    arpComponentTick (pressNote (enableArp ⟨[], none⟩) "C4") 0 0 ≠
      arpTickRequery (pressNote (enableArp ⟨[], none⟩) "C4").activeNotes 0 0 := by
  decide

/-! ## Claim C6 -/

/-- Claim C6 as stated is false on the code: with C4 already in the
ActiveNoteSet, a mouse-down on the C4 piano key still forwards an attack
command to the engine (PianoKey.handleMouseDown has no already-active
guard). -/
theorem mouseDown_on_active_note_attacks_again :
    "C4" ∈ stHeld.activeNotes ∧
    (handleMouseDown stHeld "C4" 0).2 = [EngineCmd.attack "C4"] := by
  decide

/-- Claim C6 (amended): for a note already in ActiveNoteSet, a keyboard
key-down mapped to that note is a complete no-op (state unchanged, no
engine command), while a mouse-down on that note's piano key leaves
ActiveNoteSet unchanged but still forwards exactly one attack command to
the engine per mouse press. -/
theorem trigger_on_active_note (st : SynthState) (key : String) (note : Note)
    (now : ℚ) (hk : KEY_TO_NOTE (keyToLower key) = some note)
    (hm : note ∈ st.activeNotes) :
    handleKeyDown st key now = (st, []) ∧
    (handleMouseDown st note now).1.activeNotes = st.activeNotes ∧
    (handleMouseDown st note now).2 = [.attack note] := by
  refine ⟨?_, ?_, rfl⟩
  · simp [handleKeyDown, hk, hm]
  · simp [handleMouseDown, recordIfRecording_activeNotes, setAdd, hm]

/-- Witness for the amended C6: C4 is held, the q key maps to C4. -/
theorem trigger_on_active_note_witness :
    handleKeyDown stHeld "q" 0 = (stHeld, []) ∧
    (handleMouseDown stHeld "C4" 0).1.activeNotes = stHeld.activeNotes ∧
    (handleMouseDown stHeld "C4" 0).2 = [.attack "C4"] :=
  trigger_on_active_note stHeld "q" "C4" 0 (by decide) (by decide)

/-! ## Claim C8 -/

/-- Claim C8 as stated is false on the code: the init effect constructs
reverb with .toDestination(), so the reverb stage's output feeds the
destination directly as well — it does not feed only the next stage
(delay). -/
theorem reverb_also_feeds_destination :
    (AudioNode.reverb, AudioNode.destination) ∈ initConnections ∧
    ¬ (∀ e ∈ initConnections, e.1 = AudioNode.reverb → e.2 = AudioNode.delayNode) := by
  decide

/-- Claim C8 (amended): the init effect wires the serial chain
source → reverb → delay → distortion → analyzer → destination, and this
wiring is fixed at initialization; but each of reverb, delay and distortion
is additionally connected straight to the destination (each is constructed
with .toDestination()), and the source additionally feeds the recorder, so
stage outputs do not feed only the next stage. -/
theorem initConnections_serial_chain_plus_parallel_taps :
    initConnections =
      [(AudioNode.reverb, AudioNode.destination),
       (AudioNode.delayNode, AudioNode.destination),
       (AudioNode.distortion, AudioNode.destination)]
        ++ serialChain ++ [(AudioNode.source, AudioNode.recorder)] ∧
    (∀ e ∈ serialChain, e ∈ initConnections) := by
  exact ⟨rfl, by decide⟩

/-! ## Claim C9 -/

/-- Claim C9: saving a preset and loading it back restores every one of the
five snapshot fields (volume, oscillator type, reverb wet, delay wet,
distortion wet) exactly, whatever the parameters were when loading. -/
theorem loadPreset_savePreset_roundtrip (p q : ParamState) :
    loadPreset q (some (savePreset p)) = p := by
  obtain ⟨v, o, r, d, w⟩ := p
  rfl

/-! ## Claim C10 -/

/-- Claim C10: playRecording never modifies ActiveNoteSet — the state after
the call equals the state before, and every command it issues to the engine
is a transient attack-plus-release, which does not touch the held-note
state. -/
theorem playRecording_preserves_activeNotes (st : SynthState) (now : ℚ) :
    (playRecordingS st now).1.activeNotes = st.activeNotes ∧
    ((playRecordingS st now).2.all EngineCmd.transient) = true := by
  refine ⟨rfl, ?_⟩
  simp [playRecordingS, playRecording, List.all_eq_true, EngineCmd.transient]

end Synthbro
namespace Synthbro

theorem toggleStep_length (seq : List SequenceStep) (i : ℕ) :
    (toggleStep seq i).length = seq.length := by
  induction seq generalizing i with
  | nil => rfl
  | cons s rest ih =>
      cases i with
      | zero => rfl
      | succ i => simpa [toggleStep] using ih i

theorem toggleStep_getElem (seq : List SequenceStep) (i j : ℕ) :
    (toggleStep seq i)[j]? =
      if j = i then (seq[j]?).map (fun s => { s with active := !s.active })
      else seq[j]? := by
  induction seq generalizing i j with
  | nil => simp [toggleStep]
  | cons s rest ih =>
      cases i with
      | zero =>
          cases j with
          | zero => simp [toggleStep]
          | succ j => simp [toggleStep]
      | succ i =>
          cases j with
          | zero => simp [toggleStep]
          | succ j => simpa [toggleStep] using ih i j

theorem partPassAux_notes (tm : ℕ → ℚ) (seq : List SequenceStep) (k : ℕ) :
    (partPassAux tm seq k).map EngineCmd.noteOf
      = (seq.filter fun s => s.active).map (fun s => s.note) := by
  induction seq generalizing k with
  | nil => rfl
  | cons s rest ih =>
      by_cases ha : s.active
      · simp [partPassAux, seqCallback, ha, EngineCmd.noteOf, ih]
      · simp [partPassAux, seqCallback, ha, ih]

/-- Claim C7: toggleStep changes only the addressed step's active flag —
the sequence keeps its length, and every step other than the addressed one
is untouched while that one only has its active flag negated; over one full
pass of the Part, exactly the active steps issue an attack-plus-release, in
step-position order; in particular, with steps C4 and E4 active and D4 and
F4 inactive, the pass issues exactly the C4 pluck then the E4 pluck. -/
theorem toggleStep_partPass_spec (seq : List SequenceStep) (i : ℕ) (tm : ℕ → ℚ) :
    (toggleStep seq i).length = seq.length ∧
    (∀ j : ℕ, (toggleStep seq i)[j]? =
        if j = i then (seq[j]?).map (fun s => { s with active := !s.active })
        else seq[j]?) ∧
    (partPass seq tm).map EngineCmd.noteOf
        = (seq.filter fun s => s.active).map (fun s => s.note) ∧
    partPass (toggleStep (toggleStep initialSequence 0) 2) tm =
      [.attackRelease "C4" "8n" (tm 0), .attackRelease "E4" "8n" (tm 2)] := by
  refine ⟨toggleStep_length seq i, fun j => toggleStep_getElem seq i j,
    partPassAux_notes tm seq 0, ?_⟩
  rfl

end Synthbro
namespace Synthbro

theorem slotTasks_clearTask (st : SchedState) (id : ℕ) (s : Slot) :
    slotTasks (clearTask st id) s = (slotTasks st s).filter fun p => p.1 ≠ id := by
  simp only [slotTasks, clearTask, List.filter_filter]
  exact List.filter_congr fun p _ => by rw [Bool.and_comm]

theorem slotTasks_scheduleRepeat_self (st : SchedState) (s : Slot) :
    slotTasks (scheduleRepeat st s).1 s = slotTasks st s ++ [(st.nextId, s)] := by
  simp [slotTasks, scheduleRepeat, List.filter_append]

theorem slotTasks_scheduleRepeat_other (st : SchedState) {s s' : Slot} (h : s' ≠ s) :
    slotTasks (scheduleRepeat st s').1 s = slotTasks st s := by
  simp [slotTasks, scheduleRepeat, List.filter_append, h]

end Synthbro
namespace Synthbro

theorem mem_of_slotTasks_eq {st : SchedState} {s : Slot} {id : ℕ}
    (h : slotTasks st s = [(id, s)]) : (id, s) ∈ st.registry := by
  have hmem : (id, s) ∈ slotTasks st s := by rw [h]; simp
  exact List.mem_of_mem_filter hmem

theorem slotTasks_clear_unique_self {st : SchedState} {s : Slot} {id : ℕ}
    (hs : slotTasks st s = [(id, s)]) :
    slotTasks (clearTask st id) s = [] := by
  rw [slotTasks_clearTask, hs]
  simp

theorem slotTasks_clear_unique_other {st : SchedState} {s sOther : Slot} {id : ℕ}
    (hnd : (st.registry.map Prod.fst).Nodup)
    (hs : slotTasks st s = [(id, s)])
    (hne : sOther ≠ s) :
    slotTasks (clearTask st id) sOther = slotTasks st sOther := by
  rw [slotTasks_clearTask]
  apply List.filter_eq_self.mpr
  intro p hp
  have hpreg : p ∈ st.registry := List.mem_of_mem_filter hp
  have hps : p.2 = sOther := by simpa using List.of_mem_filter hp
  have hidreg : (id, s) ∈ st.registry := mem_of_slotTasks_eq hs
  have hne2 : p.1 ≠ id := by
    intro hfst
    have hpe : p = (id, s) := List.inj_on_of_nodup_map hnd hpreg hidreg hfst
    rw [hpe] at hps
    exact hne hps.symm
  simpa using hne2

theorem slotIdInv_congr {st st2 : SchedState} {s : Slot} {o : Option ℕ}
    (hEq : slotTasks st2 s = slotTasks st s) (h : slotIdInv st s o) :
    slotIdInv st2 s o := by
  cases o with
  | none =>
      show slotTasks st2 s = []
      rw [hEq]; exact h
  | some id =>
      show slotTasks st2 s = [(id, s)]
      rw [hEq]; exact h

theorem clearTask_bound {st : SchedState}
    (h : ∀ p ∈ st.registry, p.1 < st.nextId) (id : ℕ) :
    ∀ p ∈ (clearTask st id).registry, p.1 < (clearTask st id).nextId :=
  fun p hp => h p (List.mem_of_mem_filter hp)

theorem clearTask_nodup {st : SchedState}
    (h : (st.registry.map Prod.fst).Nodup) (id : ℕ) :
    ((clearTask st id).registry.map Prod.fst).Nodup :=
  ((st.registry.filter_sublist).map Prod.fst).nodup h

theorem scheduleRepeat_bound {st : SchedState}
    (h : ∀ p ∈ st.registry, p.1 < st.nextId) (s : Slot) :
    ∀ p ∈ (scheduleRepeat st s).1.registry, p.1 < (scheduleRepeat st s).1.nextId := by
  intro p hp
  simp only [scheduleRepeat, List.mem_append, List.mem_singleton] at hp
  rcases hp with hp | rfl
  · exact Nat.lt_succ_of_lt (h p hp)
  · exact Nat.lt_succ_self _

theorem scheduleRepeat_nodup {st : SchedState}
    (hb : ∀ p ∈ st.registry, p.1 < st.nextId)
    (h : (st.registry.map Prod.fst).Nodup) (s : Slot) :
    ((scheduleRepeat st s).1.registry.map Prod.fst).Nodup := by
  simp only [scheduleRepeat, List.map_append, List.map_cons, List.map_nil]
  rw [List.nodup_append]
  refine ⟨h, List.nodup_singleton _, ?_⟩
  intro a ha hamem
  rw [List.mem_singleton] at hamem
  subst hamem
  obtain ⟨p, hp, hpa⟩ := List.mem_map.mp ha
  exact absurd hpa (Nat.ne_of_lt (hb p hp))

end Synthbro
namespace Synthbro

theorem schedInv_toggleArpeggiator {st : SchedState} (h : SchedInv st) :
    SchedInv (toggleArpeggiator st) := by
  obtain ⟨hb, hnd, ha, hm, hs, hfa, hfm⟩ := h
  unfold toggleArpeggiator
  by_cases hact : st.isArpeggiatorActive
  · rw [if_pos hact]
    cases hid : st.arpeggiatorId with
    | none =>
        rw [hid] at hfa
        simp at hfa
        rw [hfa] at hact
        exact absurd hact (by simp)
    | some id =>
        rw [hid] at ha
        have haT : slotTasks st Slot.arpeggiator = [(id, Slot.arpeggiator)] := ha
        exact ⟨clearTask_bound hb id, clearTask_nodup hnd id,
          slotTasks_clear_unique_self haT,
          slotIdInv_congr (slotTasks_clear_unique_other hnd haT (by decide)) hm,
          slotIdInv_congr (slotTasks_clear_unique_other hnd haT (by decide)) hs,
          rfl, hfm⟩
  · rw [if_neg hact]
    have hidn : st.arpeggiatorId = none := by
      cases hcase : st.arpeggiatorId with
      | none => rfl
      | some id =>
          rw [hcase] at hfa
          simp at hfa
          exact absurd hfa hact
    rw [hidn] at ha
    have haT : slotTasks st Slot.arpeggiator = [] := ha
    refine ⟨scheduleRepeat_bound hb _, scheduleRepeat_nodup hb hnd _, ?_, ?_, ?_, rfl, hfm⟩
    · show slotTasks (scheduleRepeat st Slot.arpeggiator).1 Slot.arpeggiator
          = [((scheduleRepeat st Slot.arpeggiator).2, Slot.arpeggiator)]
      rw [slotTasks_scheduleRepeat_self, haT]
      rfl
    · exact slotIdInv_congr (slotTasks_scheduleRepeat_other st (by decide)) hm
    · exact slotIdInv_congr (slotTasks_scheduleRepeat_other st (by decide)) hs

theorem schedInv_toggleMetronome {st : SchedState} (h : SchedInv st) :
    SchedInv (toggleMetronome st) := by
  obtain ⟨hb, hnd, ha, hm, hs, hfa, hfm⟩ := h
  unfold toggleMetronome
  by_cases hact : st.isMetronomeActive
  · rw [if_pos hact]
    cases hid : st.metronomeId with
    | none =>
        rw [hid] at hfm
        simp at hfm
        rw [hfm] at hact
        exact absurd hact (by simp)
    | some id =>
        rw [hid] at hm
        have hmT : slotTasks st Slot.metronome = [(id, Slot.metronome)] := hm
        exact ⟨clearTask_bound hb id, clearTask_nodup hnd id,
          slotIdInv_congr (slotTasks_clear_unique_other hnd hmT (by decide)) ha,
          slotTasks_clear_unique_self hmT,
          slotIdInv_congr (slotTasks_clear_unique_other hnd hmT (by decide)) hs,
          hfa, rfl⟩
  · rw [if_neg hact]
    have hidn : st.metronomeId = none := by
      cases hcase : st.metronomeId with
      | none => rfl
      | some id =>
          rw [hcase] at hfm
          simp at hfm
          exact absurd hfm hact
    rw [hidn] at hm
    have hmT : slotTasks st Slot.metronome = [] := hm
    refine ⟨scheduleRepeat_bound hb _, scheduleRepeat_nodup hb hnd _, ?_, ?_, ?_, hfa, rfl⟩
    · exact slotIdInv_congr (slotTasks_scheduleRepeat_other st (by decide)) ha
    · show slotTasks (scheduleRepeat st Slot.metronome).1 Slot.metronome
          = [((scheduleRepeat st Slot.metronome).2, Slot.metronome)]
      rw [slotTasks_scheduleRepeat_self, hmT]
      rfl
    · exact slotIdInv_congr (slotTasks_scheduleRepeat_other st (by decide)) hs

theorem schedInv_sequencerEffect {st : SchedState} (h : SchedInv st) :
    SchedInv (sequencerEffect st) := by
  obtain ⟨hb, hnd, ha, hm, hs, hfa, hfm⟩ := h
  unfold sequencerEffect
  cases hid : st.seqPartId with
  | none =>
      rw [hid] at hs
      have hsT : slotTasks st Slot.sequencer = [] := hs
      refine ⟨scheduleRepeat_bound hb _, scheduleRepeat_nodup hb hnd _, ?_, ?_, ?_, hfa, hfm⟩
      · exact slotIdInv_congr (slotTasks_scheduleRepeat_other st (by decide)) ha
      · exact slotIdInv_congr (slotTasks_scheduleRepeat_other st (by decide)) hm
      · show slotTasks (scheduleRepeat st Slot.sequencer).1 Slot.sequencer
            = [((scheduleRepeat st Slot.sequencer).2, Slot.sequencer)]
        rw [slotTasks_scheduleRepeat_self, hsT]
        rfl
  | some id =>
      rw [hid] at hs
      have hsT : slotTasks st Slot.sequencer = [(id, Slot.sequencer)] := hs
      have hb1 := clearTask_bound hb id
      have hnd1 := clearTask_nodup hnd id
      have hclrSelf : slotTasks (clearTask st id) Slot.sequencer = [] :=
        slotTasks_clear_unique_self hsT
      have hclrA : slotTasks (clearTask st id) Slot.arpeggiator
          = slotTasks st Slot.arpeggiator :=
        slotTasks_clear_unique_other hnd hsT (by decide)
      have hclrM : slotTasks (clearTask st id) Slot.metronome
          = slotTasks st Slot.metronome :=
        slotTasks_clear_unique_other hnd hsT (by decide)
      refine ⟨scheduleRepeat_bound hb1 _, scheduleRepeat_nodup hb1 hnd1 _, ?_, ?_, ?_,
        hfa, hfm⟩
      · refine slotIdInv_congr ?_ ha
        show slotTasks (scheduleRepeat (clearTask st id) Slot.sequencer).1 Slot.arpeggiator
            = slotTasks st Slot.arpeggiator
        rw [slotTasks_scheduleRepeat_other (clearTask st id) (by decide), hclrA]
      · refine slotIdInv_congr ?_ hm
        show slotTasks (scheduleRepeat (clearTask st id) Slot.sequencer).1 Slot.metronome
            = slotTasks st Slot.metronome
        rw [slotTasks_scheduleRepeat_other (clearTask st id) (by decide), hclrM]
      · show slotTasks (scheduleRepeat (clearTask st id) Slot.sequencer).1 Slot.sequencer
            = [((scheduleRepeat (clearTask st id) Slot.sequencer).2, Slot.sequencer)]
        rw [slotTasks_scheduleRepeat_self, hclrSelf]
        rfl

theorem schedInv_applySchedOp {st : SchedState} (h : SchedInv st) (op : SchedOp) :
    SchedInv (applySchedOp st op) := by
  cases op with
  | arp => exact schedInv_toggleArpeggiator h
  | met => exact schedInv_toggleMetronome h
  | seqEff => exact schedInv_sequencerEffect h

theorem schedInv_initSched : SchedInv initSched := by
  refine ⟨?_, ?_, ?_, ?_, ?_, rfl, rfl⟩ <;> simp [initSched, slotIdInv, slotTasks]

theorem schedInv_runSched {st : SchedState} (h : SchedInv st) (ops : List SchedOp) :
    SchedInv (runSched st ops) := by
  induction ops generalizing st with
  | nil => exact h
  | cons op rest ih => exact ih (schedInv_applySchedOp h op)

theorem firesPerTick_le_one_of_slotIdInv {st : SchedState} {s : Slot} {o : Option ℕ}
    (h : slotIdInv st s o) : firesPerTick st s ≤ 1 := by
  cases o with
  | none =>
      have hEq : slotTasks st s = [] := h
      simp [firesPerTick, hEq]
  | some id =>
      have hEq : slotTasks st s = [(id, s)] := h
      simp [firesPerTick, hEq]

/-- Claim C4: after any sequence of arpeggiator toggles, metronome toggles
and sequencer-effect re-runs from the initial state, every feature-slot has
at most one live scheduled task, so its callback fires at most once per
transport tick — enabling is only reachable from the disabled state (the
buttons toggle), and the sequencer effect always disposes the previous Part
before starting a new one. -/
theorem at_most_one_live_task_per_slot (ops : List SchedOp) (s : Slot) :
    firesPerTick (runSched initSched ops) s ≤ 1 := by
  obtain ⟨-, -, ha, hm, hs, -, -⟩ := schedInv_runSched schedInv_initSched ops
  cases s with
  | arpeggiator => exact firesPerTick_le_one_of_slotIdInv ha
  | metronome => exact firesPerTick_le_one_of_slotIdInv hm
  | sequencer => exact firesPerTick_le_one_of_slotIdInv hs

end Synthbro
